import Mathlib

/-!
Verification of the transcript-analyzer core against its specification.

Part 1: the context-tracked classification pipeline and atomic dataset
rewriter of `src/csv_classifier.py` (`classify_text_with_llm`,
`process_csv_with_llm`).

Part 2: the speaker turn segmenter of `src/docx_to_csv/docx_to_csv.py`
(`process_docx_files`).

The embedding keeps the source's names where Lean allows it.  A dataset
row is a list of string fields (the decoded CSV record); the dataset file
and the temporary file of the rewriter are modelled as an explicit
file-system state `FS`.  The external classification service is modelled
by an oracle: either an abstract total result function, or a
`ServiceOutcome` describing the transport/decoding outcome of one call.
-/

/-- One CSV record: a list of string fields. -/
abbrev Row := List String

/-- Result dictionary returned by `classify_text_with_llm`: always a
two-field object with `subthemes` and `rationale`. -/
structure LLMResult where
  subthemes : List String
  rationale : String
deriving DecidableEq

/-- Field 0 of a row (`source_file`). -/
def rowSrc (r : Row) : String := r.getD 0 ""

/-- Field 1 of a row (`name`). -/
def rowName (r : Row) : String := r.getD 1 ""

/-- Field 3 of a row (`statement`). -/
def rowStmt (r : Row) : String := r.getD 3 ""

/-- A row with at least the 4 required fields, i.e. one that is not
skipped by the `len(row) < 4` pass-through check. -/
def validRow (r : Row) : Bool := decide (4 ≤ r.length)

/-- Literal list-of-characters prefix test (used to model Python's
`str.startswith`-like behaviour and `re.escape`d literal matching). -/
def isStartOf : List Char → List Char → Bool
  | [], _ => true
  | _ :: _, [] => false
  | a :: as, b :: bs => a == b && isStartOf as bs

/-- Substring containment on character lists, modelling Python's
`pat in s`. -/
def hasSub : List Char → List Char → Bool
  | [], pat => isStartOf pat []
  | c :: rest, pat => isStartOf pat (c :: rest) || hasSub rest pat

/-- Interviewer test of `process_csv_with_llm` line 175: the literal
string `"Interviewer"` occurs as a substring of the `name` column. -/
def is_interviewer (nm : String) : Bool := hasSub nm.data "Interviewer".data

/-- The fixed placeholder used to initialise and reset
`interviewer_context` (lines 151 and 169 of `csv_classifier.py`). -/
def noContextPlaceholder : String :=
  "(No preceding question. This may be an opening statement or introduction.)"

/-- The constant rationale written for interviewer rows (line 186). -/
def interviewerRationale : String := "Statement from interviewer."

/-- Context-reset step (lines 167-170): if the row's `source_file`
differs from the tracked one, the context falls back to the placeholder. -/
def ctxAfterReset (ctx : String) (cur : Option String) (sf : String) : String :=
  if some sf ≠ cur then noContextPlaceholder else ctx

/-- Flag vector written for an interviewer row (lines 178-185): every
category scores 0 except a category literally named `"Interviewer"`. -/
def interviewerFlags (cats : List String) : List String :=
  cats.map (fun c => if c = "Interviewer" then "1" else "0")

/-- Flag vector written for a classified row (lines 199-202): a category
scores 1 exactly when it occurs among the returned subthemes. -/
def resFlags (cats : List String) (res : LLMResult) : List String :=
  cats.map (fun c => if res.subthemes.contains c then "1" else "0")

/-- One iteration of the row loop of `process_csv_with_llm`
(lines 157-208).  Input: the classifier, the category list, the running
`interviewer_context`, the tracked `current_source_file` and the row.
Output on success: the row as written to the temporary file, the context
passed to the classifier (`none` when the classifier was not called),
and the updated context state.  `Except.error` models an exception
escaping the iteration (the classifier raising). -/
def rowStep (classify : String → String → Except String LLMResult) (cats : List String)
    (ctx : String) (cur : Option String) (row : Row) :
    Except String (Row × Option String × String × Option String) :=
  if row.length < 4 then Except.ok (row, none, ctx, cur)
  else
    let ctx1 := ctxAfterReset ctx cur (rowSrc row)
    if is_interviewer (rowName row) then
      Except.ok (row ++ interviewerFlags cats ++ [interviewerRationale],
        none, rowStmt row, some (rowSrc row))
    else
      match classify (rowStmt row) ctx1 with
      | Except.error e => Except.error e
      | Except.ok res =>
          Except.ok (row ++ resFlags cats res ++ [res.rationale],
            some ctx1, ctx1, some (rowSrc row))

/-- File-system state of one run of the rewriter: the content at the
input path, and the content of the temporary file when it exists. -/
structure FS where
  orig : List Row
  temp : Option (List Row)
deriving DecidableEq

/-- Appending one record to the temporary file (`csv_writer.writerow`). -/
def writeTemp (fs : FS) (r : Row) : FS :=
  { fs with temp := some (fs.temp.getD [] ++ [r]) }

/-- Removing the temporary file (`os.remove` in the exception handler). -/
def removeTemp (fs : FS) : FS := { fs with temp := none }

/-- Atomic replacement of the original path by the temporary file
(`os.replace`). -/
def replaceOrig (fs : FS) : FS :=
  { orig := fs.temp.getD fs.orig, temp := none }

/-- The write loop of `process_csv_with_llm` over the data rows.
`ioFail k` injects an I/O exception at the k-th `writerow` call.
Returns the file-system state when the loop stops, the trace of
(written row, context passed to the classifier) pairs, and whether the
loop completed without an exception. -/
def writeLoop (classify : String → String → Except String LLMResult) (cats : List String)
    (ioFail : Nat → Bool) :
    Nat → String → Option String → List Row → FS → FS × List (Row × Option String) × Bool
  | _, _, _, [], fs => (fs, [], true)
  | k, ctx, cur, row :: rest, fs =>
    match rowStep classify cats ctx cur row with
    | Except.error _ => (fs, [], false)
    | Except.ok (out, used, ctx2, cur2) =>
        if ioFail k then (fs, [], false)
        else
          let r := writeLoop classify cats ioFail (k + 1) ctx2 cur2 rest (writeTemp fs out)
          (r.1, (out, used) :: r.2.1, r.2.2)

/-- The extended header (lines 146-148): original columns, one column per
category, and `Rationale`. -/
def newHeader (header : Row) (cats : List String) : Row :=
  header ++ cats ++ ["Rationale"]

/-- Category defaulting of lines 131-132: an absent or empty category
list falls back to the single sentinel `"Uncategorized"`. -/
def effCats (cats0 : List String) : List String :=
  if cats0.isEmpty then ["Uncategorized"] else cats0

/-- End of the run (lines 210-221): on completion of the write phase the
temporary file atomically replaces the original path; on an exception the
temporary file is removed. -/
def commitOrDiscard (fs : FS) (ok : Bool) : FS × Bool :=
  if ok then (replaceOrig fs, true) else (removeTemp fs, false)

/-- The full run of `process_csv_with_llm` on an existing dataset file
(lines 130-221): default the categories, create an empty temporary file,
write the extended header (when the first record is non-empty, mirroring
`if header:`), stream the data rows, and on completion atomically replace
the original path; on any exception during the write phase remove the
temporary file instead.  Returns the final file-system state and whether
the run succeeded. -/
def process_csv_with_llm (classify : String → String → Except String LLMResult)
    (cats0 : List String) (ioFail : Nat → Bool) (fs0 : FS) : FS × Bool :=
  match fs0.orig with
  | [] => (replaceOrig { fs0 with temp := some [] }, true)
  | h :: rest =>
    if h.isEmpty then
      let r := writeLoop classify (effCats cats0) ioFail 0 noContextPlaceholder none rest
        { fs0 with temp := some [] }
      commitOrDiscard r.1 r.2.2
    else if ioFail 0 then (removeTemp { fs0 with temp := some [] }, false)
    else
      let r := writeLoop classify (effCats cats0) ioFail 1 noContextPlaceholder none rest
        (writeTemp { fs0 with temp := some [] } (newHeader h (effCats cats0)))
      commitOrDiscard r.1 r.2.2

/-! ### Helper lemmas about the write loop and the run -/

lemma writeTemp_orig (fs : FS) (r : Row) : (writeTemp fs r).orig = fs.orig := rfl

lemma writeLoop_orig (classify : String → String → Except String LLMResult)
    (cats : List String) (ioFail : Nat → Bool) :
    ∀ (rows : List Row) (k : Nat) (ctx : String) (cur : Option String) (fs : FS),
      ((writeLoop classify cats ioFail k ctx cur rows fs).1).orig = fs.orig := by
  intro rows
  induction rows with
  | nil => intro k ctx cur fs; rfl
  | cons row rest ih =>
    intro k ctx cur fs
    simp only [writeLoop]
    cases h : rowStep classify cats ctx cur row with
    | error e => rfl
    | ok x =>
      obtain ⟨out, used, ctx2, cur2⟩ := x
      by_cases hio : ioFail k
      · simp [hio]
      · simp only [hio, if_neg Bool.false_ne_true, Bool.false_eq_true, if_false]
        rw [ih]
        rfl

lemma commitOrDiscard_temp (fs : FS) (ok : Bool) :
    (commitOrDiscard fs ok).1.temp = none := by
  cases ok <;> rfl

lemma commitOrDiscard_fail_orig (fs : FS) (ok : Bool)
    (h : (commitOrDiscard fs ok).2 = false) :
    (commitOrDiscard fs ok).1.orig = fs.orig := by
  cases ok
  · rfl
  · simp [commitOrDiscard] at h

lemma process_temp_none (classify : String → String → Except String LLMResult)
    (cats0 : List String) (ioFail : Nat → Bool) (fs0 : FS) :
    (process_csv_with_llm classify cats0 ioFail fs0).1.temp = none := by
  unfold process_csv_with_llm
  cases h : fs0.orig with
  | nil => rfl
  | cons hd rest =>
    by_cases hh : hd.isEmpty
    · simp only [hh, if_true]
      exact commitOrDiscard_temp _ _
    · by_cases hio : ioFail 0
      · simp only [hh, hio, Bool.false_eq_true, if_false, if_true]
        rfl
      · simp only [hh, hio, Bool.false_eq_true, if_false]
        exact commitOrDiscard_temp _ _

lemma process_fail_orig (classify : String → String → Except String LLMResult)
    (cats0 : List String) (ioFail : Nat → Bool) (fs0 : FS)
    (hfail : (process_csv_with_llm classify cats0 ioFail fs0).2 = false) :
    (process_csv_with_llm classify cats0 ioFail fs0).1.orig = fs0.orig := by
  unfold process_csv_with_llm at hfail ⊢
  cases h : fs0.orig with
  | nil => rw [h] at hfail; simp at hfail
  | cons hd rest =>
    rw [h] at hfail
    by_cases hh : hd.isEmpty
    · simp only [hh, if_true] at hfail ⊢
      rw [commitOrDiscard_fail_orig _ _ hfail, writeLoop_orig]
    · by_cases hio : ioFail 0
      · simp only [hh, hio, Bool.false_eq_true, if_false, if_true] at hfail ⊢
        rfl
      · simp only [hh, hio, Bool.false_eq_true, if_false] at hfail ⊢
        rw [commitOrDiscard_fail_orig _ _ hfail, writeLoop_orig, writeTemp_orig]

/-- C1.  For every run of the dataset rewriter (`process_csv_with_llm`)
in which an exception is raised during the write phase, the temporary
file is removed and the original dataset at the input path is left
unchanged; the rewritten content replaces the original path only when
all rows have been written successfully (and then no temporary file is
left behind either). -/
theorem process_write_failure_atomic
    (classify : String → String → Except String LLMResult)
    (cats0 : List String) (ioFail : Nat → Bool) (fs0 : FS) :
    ((process_csv_with_llm classify cats0 ioFail fs0).2 = false →
        (process_csv_with_llm classify cats0 ioFail fs0).1.orig = fs0.orig ∧
        (process_csv_with_llm classify cats0 ioFail fs0).1.temp = none) ∧
    ((process_csv_with_llm classify cats0 ioFail fs0).2 = true →
        (process_csv_with_llm classify cats0 ioFail fs0).1.temp = none) ∧
    ((process_csv_with_llm classify cats0 ioFail fs0).1.orig ≠ fs0.orig →
        (process_csv_with_llm classify cats0 ioFail fs0).2 = true) := by
  refine ⟨fun hfail => ⟨process_fail_orig _ _ _ _ hfail, process_temp_none _ _ _ _⟩,
    fun _ => process_temp_none _ _ _ _, fun hne => ?_⟩
  by_contra hok
  exact hne (process_fail_orig _ _ _ _ (Bool.not_eq_true _ ▸ hok))

/-- Witness for C1: a concrete run whose classifier raises on the single
respondent row; the theorem yields that the original two records survive
and no temporary file remains. -/
theorem process_write_failure_atomic_witness :
    (process_csv_with_llm (fun _ _ => Except.error "boom") ["C"] (fun _ => false)
        ⟨[["h"], ["f", "N", "t", "s"]], none⟩).1.orig = [["h"], ["f", "N", "t", "s"]] ∧
    (process_csv_with_llm (fun _ _ => Except.error "boom") ["C"] (fun _ => false)
        ⟨[["h"], ["f", "N", "t", "s"]], none⟩).1.temp = none :=
  (process_write_failure_atomic (fun _ _ => Except.error "boom") ["C"] (fun _ => false)
      ⟨[["h"], ["f", "N", "t", "s"]], none⟩).1 (by decide)

/-! ### The classification adapter: `classify_text_with_llm` -/

/-- Shape of the decoded service reply, as tested by lines 104-110 of
`csv_classifier.py`: the raw text may fail `json.loads`, parse to a
non-dict value, parse to a dict missing `subthemes` or `rationale`, or
parse to the expected two-field object. -/
inductive JShape
  | notJson (emsg : String)
  | notDict
  | missingField
  | okShape (subthemes : List String) (rationale : String)
deriving DecidableEq

/-- Outcome of one call to the external service: the transport call
itself raises, or it returns a reply with the given decoded shape. -/
inductive ServiceOutcome
  | exn (emsg : String)
  | resp (shape : JShape)
deriving DecidableEq

/-- Every outcome other than a well-shaped reply. -/
def isFailure : ServiceOutcome → Bool
  | ServiceOutcome.resp (JShape.okShape _ _) => false
  | _ => true

/-- Message of the `ValueError` raised at line 110 for a reply that is
not a dict with both required fields. -/
def shapeErrorMsg : String :=
  "LLM response is not a valid JSON object with \x27subthemes\x27 and \x27rationale\x27."

/-- Message of the `ValueError` raised at lines 75-78 when neither an
explicit key nor the environment provides a credential. -/
def missingKeyMsg : String :=
  "OPENAI_API_KEY environment variable not set in .env file or environment, and no key provided."

/-- Response handling of lines 90-118: a well-shaped reply is returned
as-is; a `json.JSONDecodeError` is downgraded to the `ERROR` sentinel
with a decoding diagnostic; the shape `ValueError` and any other
exception are downgraded to the `ERROR` sentinel with a classification
diagnostic. -/
def handle_response : ServiceOutcome → LLMResult
  | ServiceOutcome.exn e => ⟨["ERROR"], "Classification error: " ++ e⟩
  | ServiceOutcome.resp (JShape.notJson e) => ⟨["ERROR"], "JSON decoding error: " ++ e⟩
  | ServiceOutcome.resp JShape.notDict => ⟨["ERROR"], "Classification error: " ++ shapeErrorMsg⟩
  | ServiceOutcome.resp JShape.missingField =>
      ⟨["ERROR"], "Classification error: " ++ shapeErrorMsg⟩
  | ServiceOutcome.resp (JShape.okShape s r) => ⟨s, r⟩

/-- Python truthiness of an optional string: `None` and `""` are falsy. -/
def truthy : Option String → Bool
  | none => false
  | some s => s != ""

/-- Credential handling and response handling of `classify_text_with_llm`
(lines 66-118): the effective key is the provided key when truthy, else
the environment key; a falsy effective key raises `ValueError`
(`Except.error`) before any request; otherwise the service outcome is
handled and never propagates. -/
def classify_text_with_llm (api_key envKey : Option String) (outcome : ServiceOutcome) :
    Except String LLMResult :=
  if truthy (if truthy api_key then api_key else envKey) then
    Except.ok (handle_response outcome)
  else Except.error missingKeyMsg

/-- The classifier used by the row loop: each call of
`classify_text_with_llm` on (statement, context) with the given keys,
the service behaving per the oracle `svc`. -/
def classifyWith (api_key envKey : Option String)
    (svc : String → String → ServiceOutcome) : String → String → Except String LLMResult :=
  fun text ctx => classify_text_with_llm api_key envKey (svc text ctx)

/-- A total (never-raising) classifier, as obtained from an abstract
result function. -/
def liftC (f : String → String → LLMResult) : String → String → Except String LLMResult :=
  fun t c => Except.ok (f t c)

/-- No injected I/O failure. -/
def noIoFail : Nat → Bool := fun _ => false

/-- A row on which the loop calls the classification service: at least 4
fields and a non-interviewer name. -/
def needsClassify (r : Row) : Bool := validRow r && !(is_interviewer (rowName r))

lemma rowStep_isOk (classify : String → String → Except String LLMResult)
    (cats : List String) (ctx : String) (cur : Option String) (row : Row)
    (hc : ∀ t c, ∃ r, classify t c = Except.ok r) :
    ∃ x, rowStep classify cats ctx cur row = Except.ok x := by
  by_cases h4 : row.length < 4
  · exact ⟨(row, none, ctx, cur), by simp [rowStep, h4]⟩
  · by_cases hint : is_interviewer (rowName row)
    · exact ⟨(row ++ interviewerFlags cats ++ [interviewerRationale], none, rowStmt row,
        some (rowSrc row)), by simp [rowStep, h4, hint]⟩
    · obtain ⟨r, hr⟩ := hc (rowStmt row) (ctxAfterReset ctx cur (rowSrc row))
      exact ⟨(row ++ resFlags cats r ++ [r.rationale],
        some (ctxAfterReset ctx cur (rowSrc row)),
        ctxAfterReset ctx cur (rowSrc row), some (rowSrc row)),
        by simp [rowStep, h4, hint, hr]⟩

lemma writeLoop_total (classify : String → String → Except String LLMResult)
    (cats : List String) (hc : ∀ t c, ∃ r, classify t c = Except.ok r) :
    ∀ (rows : List Row) (k : Nat) (ctx : String) (cur : Option String) (fs : FS),
      (writeLoop classify cats noIoFail k ctx cur rows fs).2.2 = true ∧
      (writeLoop classify cats noIoFail k ctx cur rows fs).2.1.length = rows.length := by
  intro rows
  induction rows with
  | nil => intro k ctx cur fs; exact ⟨rfl, rfl⟩
  | cons row rest ih =>
    intro k ctx cur fs
    obtain ⟨⟨out, used, ctx2, cur2⟩, hx⟩ := rowStep_isOk classify cats ctx cur row hc
    simp only [writeLoop, hx, noIoFail, Bool.false_eq_true, if_false, List.length_cons]
    exact ⟨(ih _ _ _ _).1, by rw [(ih _ _ _ _).2]⟩

lemma writeLoop_allError (classify : String → String → Except String LLMResult)
    (cats : List String) (msg : String) (hc : ∀ t c, classify t c = Except.error msg) :
    ∀ (rows : List Row) (k : Nat) (ctx : String) (cur : Option String) (fs : FS),
      (writeLoop classify cats noIoFail k ctx cur rows fs).2.2 =
        !(rows.any needsClassify) := by
  intro rows
  induction rows with
  | nil => intro k ctx cur fs; rfl
  | cons row rest ih =>
    intro k ctx cur fs
    by_cases h4 : row.length < 4
    · have hval : validRow row = false := by simp [validRow]; omega
      have hx : rowStep classify cats ctx cur row = Except.ok (row, none, ctx, cur) := by
        simp [rowStep, h4]
      simp only [writeLoop, hx, noIoFail, Bool.false_eq_true, if_false, List.any_cons,
        needsClassify, hval, Bool.false_and, Bool.false_or]
      exact ih _ _ _ _
    · have hval : validRow row = true := by simp [validRow]; omega
      by_cases hint : is_interviewer (rowName row)
      · have hx : rowStep classify cats ctx cur row =
            Except.ok (row ++ interviewerFlags cats ++ [interviewerRationale],
              none, rowStmt row, some (rowSrc row)) := by
          simp [rowStep, h4, hint]
        simp only [writeLoop, hx, noIoFail, Bool.false_eq_true, if_false, List.any_cons,
          needsClassify, hval, hint, Bool.not_true, Bool.and_false, Bool.false_or]
        exact ih _ _ _ _
      · have hx : rowStep classify cats ctx cur row = Except.error msg := by
          simp [rowStep, h4, hint, hc]
        simp only [writeLoop, hx, List.any_cons, needsClassify, hval, hint, Bool.not_false,
          Bool.and_true, Bool.true_and, Bool.true_or, Bool.not_true]

lemma commitOrDiscard_snd (fs : FS) (ok : Bool) : (commitOrDiscard fs ok).2 = ok := by
  cases ok <;> rfl

/-- C3.  For every classification call whose service response is not
valid JSON, not a dict, or lacks a required field, and for every call on
which the transport raises, `classify_text_with_llm` (with a credential
present) returns the `ERROR` sentinel with a diagnostic rationale
instead of propagating; and for every service oracle whatsoever the row
loop completes and writes one output row per input row — the run is not
aborted. -/
theorem classify_error_downgrade_run_continues
    (api env : Option String) (svc : String → String → ServiceOutcome)
    (cats : List String) (rows : List Row) (fs : FS) (t c : String)
    (hkey : truthy api = true) (hfail : isFailure (svc t c) = true) :
    (∃ d, classify_text_with_llm api env (svc t c) = Except.ok ⟨["ERROR"], d⟩ ∧
        ∃ m, d = "Classification error: " ++ m ∨ d = "JSON decoding error: " ++ m) ∧
    (writeLoop (classifyWith api env svc) cats noIoFail 1 noContextPlaceholder none rows fs).2.2
        = true ∧
    (writeLoop (classifyWith api env svc) cats noIoFail 1
        noContextPlaceholder none rows fs).2.1.length = rows.length := by
  have hok : ∀ o, classify_text_with_llm api env o = Except.ok (handle_response o) := by
    intro o
    simp [classify_text_with_llm, hkey]
  have htot : ∀ t c, ∃ r, classifyWith api env svc t c = Except.ok r := by
    intro t c
    exact ⟨_, hok (svc t c)⟩
  refine ⟨?_, (writeLoop_total _ _ htot rows 1 _ _ fs).1,
    (writeLoop_total _ _ htot rows 1 _ _ fs).2⟩
  rw [hok (svc t c)]
  cases ho : svc t c with
  | exn e => exact ⟨_, rfl, e, Or.inl rfl⟩
  | resp sh =>
    cases sh with
    | notJson e => exact ⟨_, rfl, e, Or.inr rfl⟩
    | notDict => exact ⟨_, rfl, shapeErrorMsg, Or.inl rfl⟩
    | missingField => exact ⟨_, rfl, shapeErrorMsg, Or.inl rfl⟩
    | okShape s r => rw [ho] at hfail; simp [isFailure] at hfail

/-- Witness for C3: an authenticated run whose service raises on every
call still downgrades to the `ERROR` sentinel and processes its single
row to completion. -/
theorem classify_error_downgrade_run_continues_witness :
    (∃ d, classify_text_with_llm (some "k") none
          ((fun _ _ => ServiceOutcome.exn "boom") "s" noContextPlaceholder) =
        Except.ok ⟨["ERROR"], d⟩ ∧
        ∃ m, d = "Classification error: " ++ m ∨ d = "JSON decoding error: " ++ m) ∧
    (writeLoop (classifyWith (some "k") none (fun _ _ => ServiceOutcome.exn "boom"))
        ["C"] noIoFail 1 noContextPlaceholder none [["f", "N", "t", "s"]]
        ⟨[], some []⟩).2.2 = true ∧
    (writeLoop (classifyWith (some "k") none (fun _ _ => ServiceOutcome.exn "boom"))
        ["C"] noIoFail 1 noContextPlaceholder none [["f", "N", "t", "s"]]
        ⟨[], some []⟩).2.1.length = [["f", "N", "t", "s"]].length :=
  classify_error_downgrade_run_continues (some "k") none
    (fun _ _ => ServiceOutcome.exn "boom") ["C"] [["f", "N", "t", "s"]]
    ⟨[], some []⟩ "s" noContextPlaceholder (by decide) (by decide)

/-- Counterexample to C4 as stated: a run with no credential at all
(`api_key = None`, empty environment) on a dataset whose only data row
is an interviewer row completes successfully — no missing-credential
error is raised at all, and the row is processed and committed, because
the credential check happens lazily inside the per-row classification
call rather than before any row is processed. -/
theorem missing_key_not_failfast_counterexample :
    process_csv_with_llm
        (classifyWith none none (fun _ _ => ServiceOutcome.exn "e"))
        ["Interviewer"] noIoFail
        ⟨[["source_file", "name", "timestamp", "statement"],
          ["f", "InterviewerM", "10:00", "q"]], none⟩ =
      (⟨[["source_file", "name", "timestamp", "statement", "Interviewer", "Rationale"],
         ["f", "InterviewerM", "10:00", "q", "1", "Statement from interviewer."]],
        none⟩, true) := by
  decide

/-- C4 (amended).  With no credential available, the missing-credential
error is raised not before any row is processed but at the first row
that needs classification: the run succeeds exactly when no data row is
a valid non-interviewer row, and when the error does occur it is fatal
to the whole run — the original dataset is unchanged and the temporary
file removed — rather than being handled per-row. -/
theorem missing_key_aborts_at_first_respondent
    (api env : Option String) (svc : String → String → ServiceOutcome)
    (cats0 : List String) (fs0 : FS)
    (hapi : truthy api = false) (henv : truthy env = false) :
    (process_csv_with_llm (classifyWith api env svc) cats0 noIoFail fs0).2 =
        !(fs0.orig.tail.any needsClassify) ∧
    ((process_csv_with_llm (classifyWith api env svc) cats0 noIoFail fs0).2 = false →
        (process_csv_with_llm (classifyWith api env svc) cats0 noIoFail fs0).1.orig
            = fs0.orig ∧
        (process_csv_with_llm (classifyWith api env svc) cats0 noIoFail fs0).1.temp
            = none) := by
  have hc : ∀ t c, classifyWith api env svc t c = Except.error missingKeyMsg := by
    intro t c
    simp [classifyWith, classify_text_with_llm, hapi, henv]
  refine ⟨?_, fun hfail => ⟨process_fail_orig _ _ _ _ hfail, process_temp_none _ _ _ _⟩⟩
  unfold process_csv_with_llm
  cases h : fs0.orig with
  | nil => rfl
  | cons hd rest =>
    by_cases hh : hd.isEmpty
    · simp only [hh, if_true, commitOrDiscard_snd, List.tail_cons]
      exact writeLoop_allError _ _ _ hc rest 0 _ _ _
    · simp only [hh, Bool.false_eq_true, if_false, noIoFail, commitOrDiscard_snd,
        List.tail_cons]
      exact writeLoop_allError _ _ _ hc rest 1 _ _ _

/-- Witness for C4 (amended): with no credential and a dataset holding
one respondent row, the run reports failure and leaves the original
dataset intact with no temporary file. -/
theorem missing_key_aborts_at_first_respondent_witness :
    (process_csv_with_llm
        (classifyWith none none (fun _ _ => ServiceOutcome.exn "e"))
        ["C"] noIoFail ⟨[["h1"], ["f", "Laura", "t", "s"]], none⟩).2 =
      !([["f", "Laura", "t", "s"]].any needsClassify) ∧
    ((process_csv_with_llm
        (classifyWith none none (fun _ _ => ServiceOutcome.exn "e"))
        ["C"] noIoFail ⟨[["h1"], ["f", "Laura", "t", "s"]], none⟩).2 = false →
      (process_csv_with_llm
          (classifyWith none none (fun _ _ => ServiceOutcome.exn "e"))
          ["C"] noIoFail ⟨[["h1"], ["f", "Laura", "t", "s"]], none⟩).1.orig
          = [["h1"], ["f", "Laura", "t", "s"]] ∧
      (process_csv_with_llm
          (classifyWith none none (fun _ _ => ServiceOutcome.exn "e"))
          ["C"] noIoFail ⟨[["h1"], ["f", "Laura", "t", "s"]], none⟩).1.temp = none) :=
  missing_key_aborts_at_first_respondent none none (fun _ _ => ServiceOutcome.exn "e")
    ["C"] ⟨[["h1"], ["f", "Laura", "t", "s"]], none⟩ (by decide) (by decide)

/-! ### Context tracking: order and visible context (claim C2) -/

/-- The context the loop's state machine actually provides: walking the
already-processed rows from the most recent backwards (the argument is
the reversed prefix), the statement of the nearest interviewer row of
file `f` reached before any valid row of a different file; rows without
the 4 required fields never affect the state and are skipped. -/
def nearestCtxSinceChange : List Row → String → String
  | [], _ => noContextPlaceholder
  | r :: rs, f =>
    if validRow r then
      if rowSrc r = f then
        if is_interviewer (rowName r) then rowStmt r
        else nearestCtxSinceChange rs f
      else noContextPlaceholder
    else nearestCtxSinceChange rs f

/-- The context described by the claim's words: the statement of the
nearest preceding interviewer row with the same `source_file` value,
anywhere in the prefix (argument reversed), or the placeholder. -/
def nearestCtxSameFile : List Row → String → String
  | [], _ => noContextPlaceholder
  | r :: rs, f =>
    if validRow r && (rowSrc r == f) && is_interviewer (rowName r) then rowStmt r
    else nearestCtxSameFile rs f

/-- Source file of the most recent valid row of a reversed prefix. -/
def firstValidSrc : List Row → Option String
  | [] => none
  | r :: rs => if validRow r then some (rowSrc r) else firstValidSrc rs

/-- Invariant tying the loop state (`interviewer_context`,
`current_source_file`) to the reversed list of already-processed rows. -/
def CtxInv (p : List Row) (ctx : String) (cur : Option String) : Prop :=
  (cur = none → ctx = noContextPlaceholder ∧ firstValidSrc p = none) ∧
  (∀ f, cur = some f → ctx = nearestCtxSinceChange p f ∧ firstValidSrc p = some f)

lemma nearest_of_firstValidSrc_none (p : List Row) (f : String)
    (h : firstValidSrc p = none) :
    nearestCtxSinceChange p f = noContextPlaceholder := by
  induction p with
  | nil => rfl
  | cons r rs ih =>
    by_cases hv : validRow r
    · simp [firstValidSrc, hv] at h
    · simp only [firstValidSrc, hv, Bool.false_eq_true, if_false] at h
      simp [nearestCtxSinceChange, hv, ih h]

lemma nearest_of_firstValidSrc_ne (p : List Row) (f g : String)
    (h : firstValidSrc p = some g) (hne : g ≠ f) :
    nearestCtxSinceChange p f = noContextPlaceholder := by
  induction p with
  | nil => simp [firstValidSrc] at h
  | cons r rs ih =>
    by_cases hv : validRow r
    · simp only [firstValidSrc, hv, if_true, Option.some.injEq] at h
      have hsf : rowSrc r ≠ f := by rw [h]; exact hne
      simp [nearestCtxSinceChange, hv, hsf]
    · simp only [firstValidSrc, hv, Bool.false_eq_true, if_false] at h
      simp [nearestCtxSinceChange, hv, ih h]

lemma ctxInv_init : CtxInv [] noContextPlaceholder none := by
  constructor
  · intro _; exact ⟨rfl, rfl⟩
  · intro f hf; cases hf

/-- The context argument handed to the classifier equals the
nearest-since-change context of the processed prefix. -/
lemma ctxAfterReset_eq_nearest (p : List Row) (ctx : String) (cur : Option String)
    (sf : String) (hinv : CtxInv p ctx cur) :
    ctxAfterReset ctx cur sf = nearestCtxSinceChange p sf := by
  cases cur with
  | none =>
    have h := hinv.1 rfl
    rw [nearest_of_firstValidSrc_none p sf h.2]
    simp [ctxAfterReset]
  | some g =>
    have h := hinv.2 g rfl
    by_cases hg : g = sf
    · subst hg
      simp [ctxAfterReset, h.1]
    · rw [nearest_of_firstValidSrc_ne p sf g h.2 hg]
      have hne2 : some sf ≠ some g := by
        intro hh
        exact hg (Option.some.inj hh).symm
      simp [ctxAfterReset, hne2]

lemma ctxInv_short (row : Row) (p : List Row) (ctx : String) (cur : Option String)
    (hv : validRow row = false) (h : CtxInv p ctx cur) : CtxInv (row :: p) ctx cur := by
  constructor
  · intro hc
    obtain ⟨h1, h2⟩ := h.1 hc
    exact ⟨h1, by simp [firstValidSrc, hv, h2]⟩
  · intro f hc
    obtain ⟨h1, h2⟩ := h.2 f hc
    exact ⟨by simp [nearestCtxSinceChange, hv, h1], by simp [firstValidSrc, hv, h2]⟩

lemma ctxInv_interviewer (row : Row) (p : List Row) (ctx : String) (cur : Option String)
    (hv : validRow row = true) (hint : is_interviewer (rowName row) = true)
    (_ : CtxInv p ctx cur) :
    CtxInv (row :: p) (rowStmt row) (some (rowSrc row)) := by
  constructor
  · intro hc; cases hc
  · intro f hc
    have hf : f = rowSrc row := by injection hc with hc; exact hc.symm
    subst hf
    exact ⟨by simp [nearestCtxSinceChange, hv, hint], by simp [firstValidSrc, hv]⟩

lemma ctxInv_respondent (row : Row) (p : List Row) (ctx : String) (cur : Option String)
    (hv : validRow row = true) (hint : is_interviewer (rowName row) = false)
    (h : CtxInv p ctx cur) :
    CtxInv (row :: p) (ctxAfterReset ctx cur (rowSrc row)) (some (rowSrc row)) := by
  constructor
  · intro hc; cases hc
  · intro f hc
    have hf : f = rowSrc row := by injection hc with hc; exact hc.symm
    subst hf
    refine ⟨?_, by simp [firstValidSrc, hv]⟩
    rw [ctxAfterReset_eq_nearest p ctx cur (rowSrc row) h]
    simp [nearestCtxSinceChange, hv, hint]

lemma rowStep_short (classify : String → String → Except String LLMResult)
    (cats : List String) (ctx : String) (cur : Option String) (row : Row)
    (h4 : row.length < 4) :
    rowStep classify cats ctx cur row = Except.ok (row, none, ctx, cur) := by
  simp [rowStep, h4]

lemma rowStep_interviewer (classify : String → String → Except String LLMResult)
    (cats : List String) (ctx : String) (cur : Option String) (row : Row)
    (h4 : ¬row.length < 4) (hint : is_interviewer (rowName row) = true) :
    rowStep classify cats ctx cur row =
      Except.ok (row ++ interviewerFlags cats ++ [interviewerRationale],
        none, rowStmt row, some (rowSrc row)) := by
  simp [rowStep, h4, hint]

lemma rowStep_respondent (f : String → String → LLMResult)
    (cats : List String) (ctx : String) (cur : Option String) (row : Row)
    (h4 : ¬row.length < 4) (hint : is_interviewer (rowName row) = false) :
    rowStep (liftC f) cats ctx cur row =
      Except.ok (row ++ resFlags cats (f (rowStmt row) (ctxAfterReset ctx cur (rowSrc row)))
          ++ [(f (rowStmt row) (ctxAfterReset ctx cur (rowSrc row))).rationale],
        some (ctxAfterReset ctx cur (rowSrc row)),
        ctxAfterReset ctx cur (rowSrc row), some (rowSrc row)) := by
  simp [rowStep, h4, hint, liftC]

/-- The main induction: with the invariant holding of the processed
prefix, every classified row of the remaining input sees exactly the
nearest-since-change interviewer context. -/
lemma writeLoop_ctx_trace (f : String → String → LLMResult) (cats : List String) :
    ∀ (rows : List Row) (p : List Row) (k : Nat) (ctx : String) (cur : Option String)
      (fs : FS), CtxInv p ctx cur →
      ∀ i, i < rows.length → validRow (rows.getD i []) = true →
        is_interviewer (rowName (rows.getD i [])) = false →
        ((writeLoop (liftC f) cats noIoFail k ctx cur rows fs).2.1.getD i ([], none)).2 =
          some (nearestCtxSinceChange ((rows.take i).reverse ++ p)
            (rowSrc (rows.getD i []))) := by
  intro rows
  induction rows with
  | nil => intro p k ctx cur fs _ i hi; simp at hi
  | cons row rest ih =>
    intro p k ctx cur fs hinv i hi hv hni
    by_cases h4 : row.length < 4
    · have hx := rowStep_short (liftC f) cats ctx cur row h4
      cases i with
      | zero =>
        exfalso
        simp only [List.getD_cons_zero] at hv
        simp [validRow] at hv
        omega
      | succ j =>
        simp only [List.getD_cons_succ] at hv hni ⊢
        simp only [writeLoop, hx, noIoFail, Bool.false_eq_true, if_false,
          List.getD_cons_succ]
        rw [ih (row :: p) (k + 1) ctx cur (writeTemp fs row)
          (ctxInv_short row p ctx cur (by simp [validRow]; omega) hinv) j
          (by simpa using hi) hv hni]
        simp [List.take_succ_cons, List.reverse_cons, List.append_assoc]
    · by_cases hint : is_interviewer (rowName row)
      · have hx := rowStep_interviewer (liftC f) cats ctx cur row h4 hint
        cases i with
        | zero =>
          exfalso
          simp only [List.getD_cons_zero] at hni
          rw [hint] at hni
          cases hni
        | succ j =>
          simp only [List.getD_cons_succ] at hv hni ⊢
          simp only [writeLoop, hx, noIoFail, Bool.false_eq_true, if_false,
            List.getD_cons_succ]
          rw [ih (row :: p) (k + 1) (rowStmt row) (some (rowSrc row)) _
            (ctxInv_interviewer row p ctx cur (by simp [validRow]; omega) hint hinv) j
            (by simpa using hi) hv hni]
          simp [List.take_succ_cons, List.reverse_cons, List.append_assoc]
      · have hx := rowStep_respondent f cats ctx cur row h4
          (Bool.not_eq_true _ ▸ hint)
        cases i with
        | zero =>
          simp only [writeLoop, hx, noIoFail, Bool.false_eq_true, if_false,
            List.getD_cons_zero, List.take_zero, List.reverse_nil, List.nil_append]
          rw [ctxAfterReset_eq_nearest p ctx cur _ hinv]
        | succ j =>
          simp only [List.getD_cons_succ] at hv hni ⊢
          simp only [writeLoop, hx, noIoFail, Bool.false_eq_true, if_false,
            List.getD_cons_succ]
          rw [ih (row :: p) (k + 1) _ _ _
            (ctxInv_respondent row p ctx cur (by simp [validRow]; omega)
              (Bool.not_eq_true _ ▸ hint) hinv) j (by simpa using hi) hv hni]
          simp [List.take_succ_cons, List.reverse_cons, List.append_assoc]

/-- Per-index shape of the rows written by the loop: a row without the 4
required fields is written unchanged; a valid row is written as itself
extended by exactly one flag per category plus the rationale field. -/
lemma writeLoop_out_spec (f : String → String → LLMResult) (cats : List String) :
    ∀ (rows : List Row) (k : Nat) (ctx : String) (cur : Option String) (fs : FS)
      (i : Nat), i < rows.length →
      (validRow (rows.getD i []) = false →
        ((writeLoop (liftC f) cats noIoFail k ctx cur rows fs).2.1.getD i ([], none)).1 =
          rows.getD i []) ∧
      (validRow (rows.getD i []) = true →
        ∃ ext, ((writeLoop (liftC f) cats noIoFail k ctx cur rows fs).2.1.getD i
            ([], none)).1 = rows.getD i [] ++ ext ∧ ext.length = cats.length + 1) := by
  intro rows
  induction rows with
  | nil => intro k ctx cur fs i hi; simp at hi
  | cons row rest ih =>
    intro k ctx cur fs i hi
    by_cases h4 : row.length < 4
    · have hx := rowStep_short (liftC f) cats ctx cur row h4
      cases i with
      | zero =>
        refine ⟨fun _ => ?_, fun hv => ?_⟩
        · simp [writeLoop, hx, noIoFail]
        · exfalso
          simp only [List.getD_cons_zero] at hv
          simp [validRow] at hv
          omega
      | succ j =>
        simp only [writeLoop, hx, noIoFail, Bool.false_eq_true, if_false,
          List.getD_cons_succ]
        exact ih (k + 1) ctx cur (writeTemp fs row) j (by simpa using hi)
    · by_cases hint : is_interviewer (rowName row)
      · have hx := rowStep_interviewer (liftC f) cats ctx cur row h4 hint
        cases i with
        | zero =>
          refine ⟨fun hv => ?_, fun _ => ?_⟩
          · exfalso
            simp only [List.getD_cons_zero] at hv
            simp [validRow] at hv
            omega
          · refine ⟨interviewerFlags cats ++ [interviewerRationale], ?_, ?_⟩
            · simp [writeLoop, hx, noIoFail]
            · simp [interviewerFlags]
        | succ j =>
          simp only [writeLoop, hx, noIoFail, Bool.false_eq_true, if_false,
            List.getD_cons_succ]
          exact ih (k + 1) _ _ _ j (by simpa using hi)
      · have hx := rowStep_respondent f cats ctx cur row h4 (Bool.not_eq_true _ ▸ hint)
        cases i with
        | zero =>
          refine ⟨fun hv => ?_, fun _ => ?_⟩
          · exfalso
            simp only [List.getD_cons_zero] at hv
            simp [validRow] at hv
            omega
          · refine ⟨resFlags cats (f (rowStmt row) (ctxAfterReset ctx cur (rowSrc row)))
              ++ [(f (rowStmt row) (ctxAfterReset ctx cur (rowSrc row))).rationale], ?_, ?_⟩
            · simp [writeLoop, hx, noIoFail]
            · simp [resFlags]
        | succ j =>
          simp only [writeLoop, hx, noIoFail, Bool.false_eq_true, if_false,
            List.getD_cons_succ]
          exact ih (k + 1) _ _ _ j (by simpa using hi)

/-- Counterexample to C2 as stated: with documents interleaved
`A, B, A`, the respondent row of the second `A` block is classified with
the placeholder context, not with the statement `"q"` of the nearest
preceding interviewer row that has the same `source_file` value. -/
theorem context_nearest_same_file_counterexample :
    ((writeLoop (liftC (fun _ _ => ⟨["X"], "r"⟩)) ["X"] noIoFail 1 noContextPlaceholder
        none [["A", "InterviewerM", "1", "q"], ["B", "Resp", "2", "s1"],
          ["A", "Resp", "3", "s2"]] ⟨[], some []⟩).2.1.getD 2 ([], none)).2 =
      some noContextPlaceholder ∧
    nearestCtxSameFile
        ([["A", "InterviewerM", "1", "q"], ["B", "Resp", "2", "s1"]].reverse) "A" = "q" ∧
    noContextPlaceholder ≠ "q" := by
  decide

/-- C2 (amended).  Output row order equals input row order (the loop
writes one row per input row, each being the input row extended in
place), and the interviewer context used when classifying row N is the
statement of the nearest preceding interviewer row with row N's
`source_file` value *within the current contiguous run of that value* —
the context resets at every change of the tracked `source_file`, so an
interviewer row of the same file that lies before an intervening row of
a different file is not visible. -/
theorem classification_context_order_correct
    (f : String → String → LLMResult) (cats : List String) (rows : List Row) (fs : FS) :
    (writeLoop (liftC f) cats noIoFail 1 noContextPlaceholder none rows fs).2.2 = true ∧
    (writeLoop (liftC f) cats noIoFail 1 noContextPlaceholder none rows fs).2.1.length
        = rows.length ∧
    (∀ i, i < rows.length →
      ∃ ext, ((writeLoop (liftC f) cats noIoFail 1 noContextPlaceholder none rows
          fs).2.1.getD i ([], none)).1 = rows.getD i [] ++ ext) ∧
    (∀ i, i < rows.length → validRow (rows.getD i []) = true →
      is_interviewer (rowName (rows.getD i [])) = false →
      ((writeLoop (liftC f) cats noIoFail 1 noContextPlaceholder none rows
          fs).2.1.getD i ([], none)).2 =
        some (nearestCtxSinceChange (rows.take i).reverse (rowSrc (rows.getD i [])))) := by
  have htot : ∀ t c, ∃ r, liftC f t c = Except.ok r := fun t c => ⟨f t c, rfl⟩
  refine ⟨(writeLoop_total _ _ htot rows 1 _ _ fs).1,
    (writeLoop_total _ _ htot rows 1 _ _ fs).2, fun i hi => ?_, fun i hi hv hni => ?_⟩
  · by_cases hv : validRow (rows.getD i [])
    · obtain ⟨ext, hext, _⟩ := (writeLoop_out_spec f cats rows 1 _ _ fs i hi).2 hv
      exact ⟨ext, hext⟩
    · exact ⟨[], by
        rw [(writeLoop_out_spec f cats rows 1 _ _ fs i hi).1
          (Bool.not_eq_true _ ▸ hv), List.append_nil]⟩
  · have := writeLoop_ctx_trace f cats rows [] 1 noContextPlaceholder none fs
      ctxInv_init i hi hv hni
    rwa [List.append_nil] at this

/-- Witness for C2 (amended): in a concrete two-row dataset the
respondent row is classified with the preceding interviewer statement as
context. -/
theorem classification_context_order_correct_witness :
    ((writeLoop (liftC (fun _ _ => ⟨["X"], "r"⟩)) ["X"] noIoFail 1 noContextPlaceholder
        none [["A", "InterviewerM", "1", "q"], ["A", "Laura", "2", "s"]]
        ⟨[], some []⟩).2.1.getD 1 ([], none)).2 =
      some (nearestCtxSinceChange
        (([["A", "InterviewerM", "1", "q"], ["A", "Laura", "2", "s"]].take 1).reverse)
        (rowSrc ([["A", "InterviewerM", "1", "q"], ["A", "Laura", "2", "s"]].getD 1 []))) :=
  (classification_context_order_correct (fun _ _ => ⟨["X"], "r"⟩) ["X"]
      [["A", "InterviewerM", "1", "q"], ["A", "Laura", "2", "s"]]
      ⟨[], some []⟩).2.2.2 1 (by decide) (by decide) (by decide)

/-! ### Claim C5: how interviewer detection is configured -/

/-- Tracker step as the specification describes it: identical to the row
loop of `process_csv_with_llm` except that the interviewer decision is a
predicate supplied by the caller/configuration instead of being fixed
inside the tracker.  This definition follows the specification's words
and exists for comparison with `rowStep`. -/
def rowStepConfigurable (isInt : String → Bool)
    (classify : String → String → Except String LLMResult) (cats : List String)
    (ctx : String) (cur : Option String) (row : Row) :
    Except String (Row × Option String × String × Option String) :=
  if row.length < 4 then Except.ok (row, none, ctx, cur)
  else
    let ctx1 := ctxAfterReset ctx cur (rowSrc row)
    if isInt (rowName row) then
      Except.ok (row ++ interviewerFlags cats ++ [interviewerRationale],
        none, rowStmt row, some (rowSrc row))
    else
      match classify (rowStmt row) ctx1 with
      | Except.error e => Except.error e
      | Except.ok res =>
          Except.ok (row ++ resFlags cats res ++ [res.rationale],
            some ctx1, ctx1, some (rowSrc row))

/-- Counterexample to C5 as stated: a caller supplying the predicate
"the interviewer is the speaker named Moderator" does not get that
behaviour — on a Moderator row the pipeline's step classifies the
statement while the caller-configured tracker would mark it as an
interviewer row, because the decision is not taken from any
caller-supplied predicate. -/
theorem interviewer_predicate_not_caller_supplied_counterexample :
    rowStep (liftC (fun _ _ => ⟨[], "r"⟩)) ["Interviewer"] noContextPlaceholder none
        ["f", "Moderator", "10:00", "q"] =
      Except.ok (["f", "Moderator", "10:00", "q", "0", "r"],
        some noContextPlaceholder, noContextPlaceholder, some "f") ∧
    rowStepConfigurable (fun nm => nm == "Moderator")
        (liftC (fun _ _ => ⟨[], "r"⟩)) ["Interviewer"] noContextPlaceholder none
        ["f", "Moderator", "10:00", "q"] =
      Except.ok (["f", "Moderator", "10:00", "q", "1", "Statement from interviewer."],
        none, "q", some "f") ∧
    (["f", "Moderator", "10:00", "q", "0", "r"] : Row) ≠
      ["f", "Moderator", "10:00", "q", "1", "Statement from interviewer."] :=
  ⟨rfl, rfl, by decide⟩

/-- C5 (amended).  Interviewer detection is hardcoded inside the row
loop: the pipeline behaves exactly like the caller-configurable tracker
instantiated with the fixed substring test "the name contains the
literal string Interviewer", for every classifier, category list, state
and row — no caller-supplied predicate is consulted. -/
theorem interviewer_detection_hardcoded
    (classify : String → String → Except String LLMResult) (cats : List String)
    (ctx : String) (cur : Option String) (row : Row) :
    rowStep classify cats ctx cur row =
      rowStepConfigurable (fun nm => is_interviewer nm) classify cats ctx cur row := rfl

/-! ### Claim C6: row arity after classification -/

/-- Counterexample to C6 as stated: a data row with fewer than the 4
required fields is written through unchanged, with arity 2, not
4 + |categories| + 1. -/
theorem row_arity_counterexample :
    ((writeLoop (liftC (fun _ _ => ⟨["X"], "r"⟩)) ["X"] noIoFail 1 noContextPlaceholder
        none [["a", "b"]] ⟨[], some []⟩).2.1.getD 0 ([], none)).1.length = 2 ∧
    (2 : Nat) ≠ 4 + (["X"] : List String).length + 1 := by
  decide

/-- C6 (amended).  When every data row carries exactly the 4 original
columns, every row written by the classification loop has arity
4 + |categories| + 1 — the four original columns, one flag column per
category and one rationale column — constant across all rows of the
run.  (Rows with fewer than 4 fields pass through unchanged, and a row
with more than 4 fields keeps its own arity plus |categories| + 1.) -/
theorem row_arity_constant_for_four_field_rows
    (f : String → String → LLMResult) (cats : List String) (rows : List Row)
    (k : Nat) (ctx : String) (cur : Option String) (fs : FS)
    (h4 : ∀ r ∈ rows, r.length = 4) :
    ∀ i, i < rows.length →
      ((writeLoop (liftC f) cats noIoFail k ctx cur rows fs).2.1.getD i
          ([], none)).1.length = 4 + cats.length + 1 := by
  intro i hi
  have hmem : rows.getD i [] ∈ rows := by
    rw [List.getD_eq_getElem rows [] hi]
    exact List.getElem_mem hi
  have hlen : (rows.getD i []).length = 4 := h4 _ hmem
  have hv : validRow (rows.getD i []) = true := by
    simp only [validRow, hlen]
    decide
  obtain ⟨ext, hext, hextlen⟩ := (writeLoop_out_spec f cats rows k ctx cur fs i hi).2 hv
  rw [hext, List.length_append, hlen, hextlen]
  omega

/-- Witness for C6 (amended): one concrete 4-field row is written with
arity 4 + 1 + 1. -/
theorem row_arity_constant_for_four_field_rows_witness :
    ((writeLoop (liftC (fun _ _ => ⟨["X"], "r"⟩)) ["X"] noIoFail 1 noContextPlaceholder
        none [["f", "N", "t", "s"]] ⟨[], some []⟩).2.1.getD 0 ([], none)).1.length
      = 4 + (["X"] : List String).length + 1 :=
  row_arity_constant_for_four_field_rows (fun _ _ => ⟨["X"], "r"⟩) ["X"]
    [["f", "N", "t", "s"]] 1 noContextPlaceholder none ⟨[], some []⟩
    (by decide) 0 (by decide)

/-! ### Claim C7: running the rewriter twice -/

lemma getD_map_fst (tr : List (Row × Option String)) :
    ∀ j, (tr.map Prod.fst).getD j [] = (tr.getD j ([], none)).1 := by
  induction tr with
  | nil => intro j; cases j <;> rfl
  | cons a t ih =>
    intro j
    cases j with
    | zero => rfl
    | succ j => simp only [List.map_cons, List.getD_cons_succ]; exact ih j

lemma writeLoop_temp_total (classify : String → String → Except String LLMResult)
    (cats : List String) (hc : ∀ t c, ∃ r, classify t c = Except.ok r) :
    ∀ (rows : List Row) (k : Nat) (ctx : String) (cur : Option String) (fs : FS)
      (tmp0 : List Row), fs.temp = some tmp0 →
      ((writeLoop classify cats noIoFail k ctx cur rows fs).1).temp =
        some (tmp0 ++ (writeLoop classify cats noIoFail k ctx cur rows fs).2.1.map
          Prod.fst) := by
  intro rows
  induction rows with
  | nil => intro k ctx cur fs tmp0 h; simp [writeLoop, h]
  | cons row rest ih =>
    intro k ctx cur fs tmp0 h
    obtain ⟨⟨out, used, ctx2, cur2⟩, hx⟩ := rowStep_isOk classify cats ctx cur row hc
    simp only [writeLoop, hx, noIoFail, Bool.false_eq_true, if_false, List.map_cons]
    rw [ih (k + 1) ctx2 cur2 (writeTemp fs out) (tmp0 ++ [out]) (by simp [writeTemp, h])]
    simp [List.append_assoc]

/-- The trace and the completion flag of the write loop do not depend on
the threaded file-system state (which only accumulates the writes). -/
lemma writeLoop_snd_indep (classify : String → String → Except String LLMResult)
    (cats : List String) (ioFail : Nat → Bool) :
    ∀ (rows : List Row) (k : Nat) (ctx : String) (cur : Option String) (fs fs' : FS),
      (writeLoop classify cats ioFail k ctx cur rows fs).2 =
        (writeLoop classify cats ioFail k ctx cur rows fs').2 := by
  intro rows
  induction rows with
  | nil => intro k ctx cur fs fs'; rfl
  | cons row rest ih =>
    intro k ctx cur fs fs'
    simp only [writeLoop]
    cases h : rowStep classify cats ctx cur row with
    | error e => rfl
    | ok x =>
      obtain ⟨out, used, ctx2, cur2⟩ := x
      by_cases hio : ioFail k
      · simp [hio]
      · simp only [hio, Bool.false_eq_true, if_false]
        rw [ih (k + 1) ctx2 cur2 (writeTemp fs out) (writeTemp fs' out)]

/-- Closed form of a successful run with a non-empty header record: the
committed content is the extended header followed by the loop's output
rows (stated with a canonical file-system state, on which the trace does
not depend). -/
lemma process_liftC_eq (f : String → String → LLMResult) (cats0 : List String)
    (hd0 : Row) (rest : List Row) (fs0 : FS) (horig : fs0.orig = hd0 :: rest)
    (hh : ¬hd0.isEmpty = true) :
    process_csv_with_llm (liftC f) cats0 noIoFail fs0 =
      (⟨newHeader hd0 (effCats cats0) ::
          (writeLoop (liftC f) (effCats cats0) noIoFail 1 noContextPlaceholder none rest
            ⟨[], none⟩).2.1.map Prod.fst, none⟩, true) := by
  have htot : ∀ t c, ∃ r, liftC f t c = Except.ok r := fun t c => ⟨f t c, rfl⟩
  have hflag := (writeLoop_total (liftC f) (effCats cats0) htot rest 1 noContextPlaceholder
    none (writeTemp { fs0 with temp := some [] } (newHeader hd0 (effCats cats0)))).1
  have htemp := writeLoop_temp_total (liftC f) (effCats cats0) htot rest 1
    noContextPlaceholder none
    (writeTemp { fs0 with temp := some [] } (newHeader hd0 (effCats cats0)))
    [newHeader hd0 (effCats cats0)] (by simp [writeTemp])
  have hindep := congrArg Prod.fst (writeLoop_snd_indep (liftC f) (effCats cats0) noIoFail
    rest 1 noContextPlaceholder none
    (writeTemp { fs0 with temp := some [] } (newHeader hd0 (effCats cats0))) ⟨[], none⟩)
  rw [hindep] at htemp
  rw [horig] at hflag htemp
  unfold process_csv_with_llm
  rw [horig]
  simp only [hh, Bool.false_eq_true, if_false, noIoFail, commitOrDiscard, hflag, if_true,
    replaceOrig, htemp]
  rfl

/-- Counterexample to C7 as stated: running the rewriter a second time
on the dataset it has just classified (same categories, same classifier
results) does not reproduce the first run's output — the category and
rationale columns are appended again. -/
theorem rewriter_not_idempotent_counterexample :
    (process_csv_with_llm (liftC (fun _ _ => ⟨["C"], "r"⟩)) ["C"] noIoFail
        (process_csv_with_llm (liftC (fun _ _ => ⟨["C"], "r"⟩)) ["C"] noIoFail
          ⟨[["source_file", "name", "timestamp", "statement"],
            ["f", "X", "1", "hello"]], none⟩).1).1.orig ≠
      (process_csv_with_llm (liftC (fun _ _ => ⟨["C"], "r"⟩)) ["C"] noIoFail
        ⟨[["source_file", "name", "timestamp", "statement"],
          ["f", "X", "1", "hello"]], none⟩).1.orig := by
  decide

/-- C7 (amended).  A second run of the rewriter on an already-classified
dataset succeeds and appends the category and rationale columns again:
it writes the same number of records, each record of the second output
extends the corresponding record of the first output in place, and the
two outputs are never byte-identical (for a dataset with a non-empty
header record). -/
theorem second_run_appends_columns_again
    (f : String → String → LLMResult) (cats0 : List String)
    (hd0 : Row) (rest : List Row) (fs0 : FS)
    (horig : fs0.orig = hd0 :: rest) (hh : ¬hd0.isEmpty = true) :
    (process_csv_with_llm (liftC f) cats0 noIoFail fs0).2 = true ∧
    (process_csv_with_llm (liftC f) cats0 noIoFail
        (process_csv_with_llm (liftC f) cats0 noIoFail fs0).1).2 = true ∧
    (process_csv_with_llm (liftC f) cats0 noIoFail
        (process_csv_with_llm (liftC f) cats0 noIoFail fs0).1).1.orig.length =
      (process_csv_with_llm (liftC f) cats0 noIoFail fs0).1.orig.length ∧
    (∀ i, i < (process_csv_with_llm (liftC f) cats0 noIoFail fs0).1.orig.length →
      ∃ ext, (process_csv_with_llm (liftC f) cats0 noIoFail
            (process_csv_with_llm (liftC f) cats0 noIoFail fs0).1).1.orig.getD i [] =
          (process_csv_with_llm (liftC f) cats0 noIoFail fs0).1.orig.getD i [] ++ ext) ∧
    (process_csv_with_llm (liftC f) cats0 noIoFail
        (process_csv_with_llm (liftC f) cats0 noIoFail fs0).1).1.orig ≠
      (process_csv_with_llm (liftC f) cats0 noIoFail fs0).1.orig := by
  have htot : ∀ t c, ∃ r, liftC f t c = Except.ok r := fun t c => ⟨f t c, rfl⟩
  have hq1 := process_liftC_eq f cats0 hd0 rest fs0 horig hh
  have hh1 : ¬(newHeader hd0 (effCats cats0)).isEmpty = true := by
    cases hd0 with
    | nil => exact absurd rfl hh
    | cons a as => simp [newHeader]
  have hq2 := process_liftC_eq f cats0 (newHeader hd0 (effCats cats0))
    ((writeLoop (liftC f) (effCats cats0) noIoFail 1 noContextPlaceholder none rest
      ⟨[], none⟩).2.1.map Prod.fst)
    ⟨newHeader hd0 (effCats cats0) ::
      (writeLoop (liftC f) (effCats cats0) noIoFail 1 noContextPlaceholder none rest
        ⟨[], none⟩).2.1.map Prod.fst, none⟩ rfl hh1
  rw [hq1]
  simp only []
  rw [hq2]
  simp only []
  set outs1 := (writeLoop (liftC f) (effCats cats0) noIoFail 1 noContextPlaceholder none
    rest ⟨[], none⟩).2.1.map Prod.fst with houts1
  have hlen2 : ((writeLoop (liftC f) (effCats cats0) noIoFail 1 noContextPlaceholder none
      outs1 ⟨[], none⟩).2.1.map Prod.fst).length = outs1.length := by
    rw [List.length_map]
    exact (writeLoop_total (liftC f) (effCats cats0) htot outs1 1 _ _ _).2
  refine ⟨by trivial, by trivial, by simp [hlen2], fun i hi => ?_, ?_⟩
  · cases i with
    | zero =>
      exact ⟨effCats cats0 ++ ["Rationale"], by
        simp [newHeader, List.append_assoc]⟩
    | succ j =>
      simp only [List.length_cons] at hi
      have hj : j < outs1.length := by
        rw [houts1, List.length_map,
          (writeLoop_total (liftC f) (effCats cats0) htot rest 1 _ _ _).2] at hi ⊢
        omega
      simp only [List.getD_cons_succ]
      rw [getD_map_fst]
      by_cases hv : validRow (outs1.getD j [])
      · obtain ⟨ext, hext, _⟩ := (writeLoop_out_spec f (effCats cats0) outs1 1
          noContextPlaceholder none ⟨[], none⟩ j hj).2 hv
        exact ⟨ext, hext⟩
      · exact ⟨[], by
          rw [(writeLoop_out_spec f (effCats cats0) outs1 1 noContextPlaceholder none
            ⟨[], none⟩ j hj).1 (Bool.not_eq_true _ ▸ hv), List.append_nil]⟩
  · intro heq
    have hhd := congrArg (fun l => l.getD 0 ([] : Row)) heq
    simp only [List.getD_cons_zero] at hhd
    have hlen := congrArg List.length hhd
    simp [newHeader] at hlen

/-- Witness for C7 (amended): on a concrete already-classified dataset
the second run's committed content differs from the first run's. -/
theorem second_run_appends_columns_again_witness :
    (process_csv_with_llm (liftC (fun _ _ => ⟨["C"], "r"⟩)) ["C"] noIoFail
        (process_csv_with_llm (liftC (fun _ _ => ⟨["C"], "r"⟩)) ["C"] noIoFail
          ⟨[["h1"], ["f", "X", "1", "hello"]], none⟩).1).1.orig ≠
      (process_csv_with_llm (liftC (fun _ _ => ⟨["C"], "r"⟩)) ["C"] noIoFail
        ⟨[["h1"], ["f", "X", "1", "hello"]], none⟩).1.orig :=
  (second_run_appends_columns_again (fun _ _ => ⟨["C"], "r"⟩) ["C"] ["h1"]
      [["f", "X", "1", "hello"]] ⟨[["h1"], ["f", "X", "1", "hello"]], none⟩ rfl
      (by decide)).2.2.2.2

/-! ### The speaker turn segmenter of `docx_to_csv.py` -/

/-- Whitespace stripping on character lists, modelling Python's
`str.strip()` (with Lean's `Char.isWhitespace` as the whitespace
class). -/
def stripChars (cs : List Char) : List Char :=
  ((cs.dropWhile Char.isWhitespace).reverse.dropWhile Char.isWhitespace).reverse

/-- String form of `str.strip()`. -/
def strTrim (s : String) : String := String.mk (stripChars s.data)

/-- The core timestamp shape `\d{2}:\d{2}` of the speaker pattern
(line 32 of `docx_to_csv.py`), matched at the start of a character
list. -/
def tsCore : List Char → Option (List Char × List Char)
  | c1 :: c2 :: c3 :: c4 :: c5 :: rest =>
    if c1.isDigit && c2.isDigit && c3 == ':' && c4.isDigit && c5.isDigit then
      some ([c1, c2, c3, c4, c5], rest)
    else none
  | _ => none

/-- The optional hour group matched greedily with two digits
(`\d{2}:` then the core). -/
def tsHour2 : List Char → Option (String × List Char)
  | c1 :: c2 :: c3 :: rest =>
    if c1.isDigit && c2.isDigit && c3 == ':' then
      match tsCore rest with
      | some (core, r2) => some (String.mk (c1 :: c2 :: c3 :: core), r2)
      | none => none
    else none
  | _ => none

/-- The optional hour group matched with one digit (`\d:` then the
core). -/
def tsHour1 : List Char → Option (String × List Char)
  | c1 :: c2 :: rest =>
    if c1.isDigit && c2 == ':' then
      match tsCore rest with
      | some (core, r2) => some (String.mk (c1 :: c2 :: core), r2)
      | none => none
    else none
  | _ => none

/-- The timestamp with the optional hour group omitted. -/
def tsBare (cs : List Char) : Option (String × List Char) :=
  match tsCore cs with
  | some (core, r2) => some (String.mk core, r2)
  | none => none

/-- The full timestamp group `((\d{1,2}:)?\d{2}:\d{2})` with Python
regex backtracking order: greedy two-digit hour first, then one-digit
hour, then no hour group. -/
def tsMatch (cs : List Char) : Option (String × List Char) :=
  match tsHour2 cs with
  | some r => some r
  | none =>
    match tsHour1 cs with
    | some r => some r
    | none => tsBare cs

/-- First alternative after the speaker label
(`\s+((\d{1,2}:)?\d{2}:\d{2})\s*(.*)`): at least one whitespace
character, the timestamp group, then the rest of the line after maximal
whitespace as group 4.  Returns (group 2, group 4). -/
def altA (cs : List Char) : Option (String × String) :=
  if (cs.takeWhile Char.isWhitespace).isEmpty then none
  else
    match tsMatch (cs.dropWhile Char.isWhitespace) with
    | some (ts, r2) => some (ts, String.mk (r2.dropWhile Char.isWhitespace))
    | none => none

/-- Second alternative after the speaker label (`\s*$`): only
whitespace up to the end of the line. -/
def altB (cs : List Char) : Bool := cs.all Char.isWhitespace

/-- Matching one registered label against a (stripped) line: the
`re.escape`d label matches literally at the start, then either
alternative A (timestamp, optional inline statement) or alternative B
(end of line).  Result is (timestamp or `""`, group-4 text or `""`),
mirroring the `if match.group(2/4) else ""` handling of lines 95-96. -/
def matchName (nm text : String) : Option (String × String) :=
  if isStartOf nm.data text.data then
    match altA (text.data.drop nm.data.length) with
    | some (ts, st) => some (ts, st)
    | none =>
        if altB (text.data.drop nm.data.length) then some ("", "") else none
  else none

/-- The alternation `(name1|name2|...)` of the compiled speaker pattern:
Python tries the registered labels in registry order at the same
position and accepts the first whose whole anchored pattern matches. -/
def speakerMatchFirst : List String → String → Option (String × String × String)
  | [], _ => none
  | nm :: ns, text =>
    match matchName nm text with
    | some (ts, st) => some (nm, ts, st)
    | none => speakerMatchFirst ns text

/-- One line of the segmenter loop (lines 81-103 of `docx_to_csv.py`):
strip the line; skip it when blank; on a speaker match update the
current speaker/timestamp and emit a row only when inline statement
text is present; otherwise emit a continuation row for the current
speaker, or silently drop the line when no speaker has been seen. -/
def procLine (names : List String) (src : String) (st : Option (String × String))
    (line : String) : Option (String × String) × List Row :=
  if strTrim line = "" then (st, [])
  else
    match speakerMatchFirst names (strTrim line) with
    | some (nm, ts, stRaw) =>
      (some (strTrim nm, strTrim ts),
        if strTrim stRaw ≠ "" then [[src, strTrim nm, strTrim ts, strTrim stRaw]] else [])
    | none =>
      match st with
      | some (sp, tms) => (st, [[src, sp, tms, strTrim line]])
      | none => (st, [])

/-- The segmenter over the lines of one document, threading the current
speaker/timestamp state and concatenating the emitted rows in order. -/
def segLines (names : List String) (src : String) :
    Option (String × String) → List String → Option (String × String) × List Row
  | st, [] => (st, [])
  | st, l :: ls =>
    let r1 := procLine names src st l
    let r2 := segLines names src r1.1 ls
    (r2.1, r1.2 ++ r2.2)

/-! ### Claim C8: label selection among overlapping registered labels -/

lemma matchName_isStart (nm text : String) (ts st : String)
    (h : matchName nm text = some (ts, st)) :
    isStartOf nm.data text.data = true := by
  by_cases hp : isStartOf nm.data text.data
  · exact hp
  · simp [matchName, hp] at h

lemma speakerMatchFirst_sound :
    ∀ (names : List String) (text m ts st : String),
      speakerMatchFirst names text = some (m, ts, st) →
      m ∈ names ∧ isStartOf m.data text.data = true := by
  intro names
  induction names with
  | nil => intro text m ts st h; cases h
  | cons a ns ih =>
    intro text m ts st h
    unfold speakerMatchFirst at h
    cases hmm : matchName a text with
    | some p =>
      obtain ⟨ts', st'⟩ := p
      rw [hmm] at h
      injection h with h'
      have hma : a = m := congrArg Prod.fst h'
      subst hma
      exact ⟨List.mem_cons_self a ns, matchName_isStart a text ts' st' hmm⟩
    | none =>
      rw [hmm] at h
      obtain ⟨h1, h2⟩ := ih text m ts st h
      exact ⟨List.mem_cons_of_mem a h1, h2⟩

lemma speakerMatchFirst_unique_found :
    ∀ (names : List String) (text nm : String), nm ∈ names →
      (matchName nm text).isSome = true →
      (∀ m ∈ names, (matchName m text).isSome = true → m = nm) →
      ∃ ts st, speakerMatchFirst names text = some (nm, ts, st) := by
  intro names
  induction names with
  | nil => intro text nm hmem; cases hmem
  | cons a ns ih =>
    intro text nm hmem hfull huniq
    cases hmm : matchName a text with
    | some p =>
      obtain ⟨ts, st⟩ := p
      have hma : a = nm := huniq a (List.mem_cons_self a ns) (by rw [hmm]; rfl)
      subst hma
      exact ⟨ts, st, by simp [speakerMatchFirst, hmm]⟩
    | none =>
      have hnm : nm ∈ ns := by
        rcases List.mem_cons.mp hmem with h | h
        · subst h; rw [hmm] at hfull; cases hfull
        · exact h
      obtain ⟨ts, st, hres⟩ := ih text nm hnm hfull
        (fun m hm hs => huniq m (List.mem_cons_of_mem a hm) hs)
      exact ⟨ts, st, by simp [speakerMatchFirst, hmm, hres]⟩

/-- C8.  When a line's prefix equals more than one registered label, the
classifier accepts exactly the label whose whole anchored pattern (label
then timestamp-plus-optional-statement or end of line) matches: if `nm`
is the unique registered label with a full match on the line, the
alternation returns `nm`; and any returned label is a registered label
matched case-sensitively and literally as a character-for-character
prefix of the line. -/
theorem speaker_label_full_match_selected (names : List String) (text nm : String)
    (hmem : nm ∈ names) (hfull : (matchName nm text).isSome = true)
    (huniq : ∀ m ∈ names, (matchName m text).isSome = true → m = nm) :
    (∃ ts st, speakerMatchFirst names text = some (nm, ts, st)) ∧
    (∀ m ts st, speakerMatchFirst names text = some (m, ts, st) →
      m ∈ names ∧ isStartOf m.data text.data = true) :=
  ⟨speakerMatchFirst_unique_found names text nm hmem hfull huniq,
    fun m ts st h => speakerMatchFirst_sound names text m ts st h⟩

/-- Witness for C8: with both "Al" and "Alice" registered and the line
"Alice 10:01 hi", only "Alice" yields a full anchored match and the
classifier selects it. -/
theorem speaker_label_full_match_selected_witness :
    (∃ ts st, speakerMatchFirst ["Al", "Alice"] "Alice 10:01 hi" = some ("Alice", ts, st)) ∧
    (∀ m ts st, speakerMatchFirst ["Al", "Alice"] "Alice 10:01 hi" = some (m, ts, st) →
      m ∈ ["Al", "Alice"] ∧ isStartOf m.data "Alice 10:01 hi".data = true) :=
  speaker_label_full_match_selected ["Al", "Alice"] "Alice 10:01 hi" "Alice"
    (by decide) (by decide) (by decide)

/-! ### Claims C9 and C10: openings without inline statement text -/

lemma segLines_blanks (names : List String) (src : String) (st : Option (String × String))
    (blanks : List String) (hb : ∀ b ∈ blanks, strTrim b = "") (rest : List String) :
    segLines names src st (blanks ++ rest) = segLines names src st rest := by
  induction blanks with
  | nil => rfl
  | cons b bs ih =>
    have hb0 : strTrim b = "" := hb b (List.mem_cons_self b bs)
    have h1 : procLine names src st b = (st, []) := by
      simp [procLine, hb0]
    simp only [List.cons_append, segLines, h1]
    exact ih (fun x hx => hb x (List.mem_cons_of_mem b hx))

/-- C9.  A turn-opening line with no inline statement text emits no row
by itself: it only updates the current speaker and timestamp, and the
next non-blank, non-opening line is emitted as that speaker's statement
carrying that same timestamp. -/
theorem opening_without_statement_defers_row
    (names : List String) (src : String) (st0 : Option (String × String))
    (line l2 : String) (blanks : List String) (nm ts raw : String)
    (hne : strTrim line ≠ "")
    (hm : speakerMatchFirst names (strTrim line) = some (nm, ts, raw))
    (hraw : strTrim raw = "")
    (hb : ∀ b ∈ blanks, strTrim b = "")
    (h2ne : strTrim l2 ≠ "")
    (h2m : speakerMatchFirst names (strTrim l2) = none) :
    segLines names src st0 (line :: (blanks ++ [l2])) =
      (some (strTrim nm, strTrim ts),
        [[src, strTrim nm, strTrim ts, strTrim l2]]) := by
  have h1 : procLine names src st0 line = (some (strTrim nm, strTrim ts), []) := by
    unfold procLine
    rw [if_neg hne, hm]
    simp [hraw]
  have h2 : procLine names src (some (strTrim nm, strTrim ts)) l2 =
      (some (strTrim nm, strTrim ts), [[src, strTrim nm, strTrim ts, strTrim l2]]) := by
    unfold procLine
    rw [if_neg h2ne, h2m]
  simp only [segLines, h1]
  rw [segLines_blanks names src _ blanks hb [l2]]
  simp only [segLines, h2]
  simp

/-- Witness for C9: "Alice 10:00" alone emits no row; after a blank
line, " hello " becomes Alice's statement with timestamp "10:00". -/
theorem opening_without_statement_defers_row_witness :
    segLines ["Alice"] "d" none ("Alice 10:00" :: ([""] ++ [" hello "])) =
      (some ("Alice", "10:00"), [["d", "Alice", "10:00", "hello"]]) :=
  opening_without_statement_defers_row ["Alice"] "d" none "Alice 10:00" " hello "
    [""] "Alice" "10:00" "" (by decide) (by decide) (by decide) (by decide)
    (by decide) (by decide)

lemma tsHour2_ne (cs : List Char) (ts : String) (r : List Char)
    (h : tsHour2 cs = some (ts, r)) : ts ≠ "" := by
  unfold tsHour2 at h
  split at h
  · split at h
    · split at h
      · injection h with h'
        simp only [Prod.mk.injEq] at h'
        obtain ⟨h1, _⟩ := h'
        intro he
        rw [he] at h1
        have hd := congrArg String.data h1
        simp at hd
      · cases h
    · cases h
  · cases h

lemma tsHour1_ne (cs : List Char) (ts : String) (r : List Char)
    (h : tsHour1 cs = some (ts, r)) : ts ≠ "" := by
  unfold tsHour1 at h
  split at h
  · split at h
    · split at h
      · injection h with h'
        simp only [Prod.mk.injEq] at h'
        obtain ⟨h1, _⟩ := h'
        intro he
        rw [he] at h1
        have hd := congrArg String.data h1
        simp at hd
      · cases h
    · cases h
  · cases h

lemma tsCore_shape (cs : List Char) (core r : List Char)
    (h : tsCore cs = some (core, r)) : core.length = 5 := by
  unfold tsCore at h
  split at h
  · split at h
    · injection h with h'
      simp only [Prod.mk.injEq] at h'
      obtain ⟨h1, _⟩ := h'
      rw [← h1]
      rfl
    · cases h
  · cases h

lemma tsBare_ne (cs : List Char) (ts : String) (r : List Char)
    (h : tsBare cs = some (ts, r)) : ts ≠ "" := by
  unfold tsBare at h
  split at h
  · rename_i core r2 hcore
    injection h with h'
    simp only [Prod.mk.injEq] at h'
    obtain ⟨h1, _⟩ := h'
    intro he
    rw [he] at h1
    have hd := congrArg String.data h1
    have h5 := tsCore_shape cs core r2 hcore
    simp at hd
    rw [hd] at h5
    simp at h5
  · cases h

lemma tsMatch_ne_empty (cs : List Char) (ts : String) (r : List Char)
    (h : tsMatch cs = some (ts, r)) : ts ≠ "" := by
  unfold tsMatch at h
  split at h
  · rename_i p h2
    obtain ⟨ts2, r2⟩ := p
    injection h with h'
    simp only [Prod.mk.injEq] at h'
    obtain ⟨h1, _⟩ := h'
    rw [← h1]
    exact tsHour2_ne cs ts2 r2 h2
  · split at h
    · rename_i p h1e
      obtain ⟨ts1, r1⟩ := p
      injection h with h'
      simp only [Prod.mk.injEq] at h'
      obtain ⟨h1, _⟩ := h'
      rw [← h1]
      exact tsHour1_ne cs ts1 r1 h1e
    · exact tsBare_ne cs ts r h

lemma altA_ts_ne (cs : List Char) (ts st : String)
    (h : altA cs = some (ts, st)) : ts ≠ "" := by
  unfold altA at h
  split at h
  · cases h
  · split at h
    · rename_i ts0 r2 hts
      injection h with h'
      simp only [Prod.mk.injEq] at h'
      obtain ⟨h1, _⟩ := h'
      rw [← h1]
      exact tsMatch_ne_empty _ ts0 r2 hts
    · cases h

lemma matchName_empty_ts (nm text st : String)
    (h : matchName nm text = some ("", st)) : st = "" := by
  unfold matchName at h
  split at h
  · split at h
    · rename_i ts0 st0 ha
      injection h with h'
      simp only [Prod.mk.injEq] at h'
      exact absurd h'.1 (altA_ts_ne _ ts0 st0 ha)
    · split at h
      · injection h with h'
        simp only [Prod.mk.injEq] at h'
        exact h'.2.symm
      · cases h
  · cases h

lemma speakerMatchFirst_empty_ts :
    ∀ (names : List String) (text nm raw : String),
      speakerMatchFirst names text = some (nm, "", raw) → raw = "" := by
  intro names
  induction names with
  | nil => intro text nm raw h; cases h
  | cons a ns ih =>
    intro text nm raw h
    unfold speakerMatchFirst at h
    cases hmm : matchName a text with
    | some p =>
      obtain ⟨ts', st'⟩ := p
      rw [hmm] at h
      injection h with h'
      simp only [Prod.mk.injEq] at h'
      obtain ⟨_, he2, he3⟩ := h'
      rw [← he3]
      exact matchName_empty_ts a text st' (he2 ▸ hmm)
    | none =>
      rw [hmm] at h
      exact ih text nm raw h

lemma segLines_continuations (names : List String) (src sp tms : String) :
    ∀ (ls : List String),
      (∀ l ∈ ls, strTrim l ≠ "" ∧ speakerMatchFirst names (strTrim l) = none) →
      segLines names src (some (sp, tms)) ls =
        (some (sp, tms), ls.map (fun l => [src, sp, tms, strTrim l])) := by
  intro ls
  induction ls with
  | nil => intro _; rfl
  | cons l ls ih =>
    intro hls
    obtain ⟨hne, hnm⟩ := hls l (List.mem_cons_self l ls)
    have h1 : procLine names src (some (sp, tms)) l =
        (some (sp, tms), [[src, sp, tms, strTrim l]]) := by
      unfold procLine
      rw [if_neg hne, hnm]
    simp only [segLines, h1, List.map_cons]
    rw [ih (fun x hx => hls x (List.mem_cons_of_mem l hx))]
    simp

/-- C10.  A turn-opening line consisting of a registered speaker label
alone (no timestamp token) sets the current timestamp to the empty
string, so every continuation row emitted before the next opening
carries an empty timestamp — even when the prior state carried a
non-empty timestamp from a previous turn. -/
theorem label_alone_resets_timestamp_empty
    (names : List String) (src sp0 ts0 line : String) (ls : List String)
    (nm raw : String)
    (hne : strTrim line ≠ "")
    (hm : speakerMatchFirst names (strTrim line) = some (nm, "", raw))
    (hls : ∀ l ∈ ls, strTrim l ≠ "" ∧ speakerMatchFirst names (strTrim l) = none) :
    segLines names src (some (sp0, ts0)) (line :: ls) =
      (some (strTrim nm, ""), ls.map (fun l => [src, strTrim nm, "", strTrim l])) := by
  have hraw : raw = "" := speakerMatchFirst_empty_ts names (strTrim line) nm raw hm
  subst hraw
  have h1 : procLine names src (some (sp0, ts0)) line = (some (strTrim nm, ""), []) := by
    unfold procLine
    rw [if_neg hne, hm]
    simp [strTrim, stripChars]
  simp only [segLines, h1]
  rw [segLines_continuations names src (strTrim nm) "" ls hls]
  simp

/-- Witness for C10: the line "Bob" alone, following a state in which
Alice's turn carried timestamp "10:00", switches the speaker to Bob with
an empty timestamp, and the continuation line inherits it. -/
theorem label_alone_resets_timestamp_empty_witness :
    segLines ["Bob", "Alice"] "d" (some ("Alice", "10:00")) ("Bob" :: ["more text"]) =
      (some ("Bob", ""),
        ["more text"].map (fun l => ["d", "Bob", "", strTrim l])) :=
  label_alone_resets_timestamp_empty ["Bob", "Alice"] "d" "Alice" "10:00" "Bob"
    ["more text"] "Bob" "" (by decide) (by decide) (by decide)
